import Mathlib

/-!
# Verification of the readme2tex equation-extraction and render-caching pipeline

A shallow embedding of `src/readme2tex/render.py`.  Documents are `List Char`
(Python `str` with byte/character offsets).  Python floats are idealised as `ℚ`
(the claims under study are structural, not about IEEE rounding).  External
collaborators (the filesystem, `git`, the LaTeX engine, `dvisvgm`, the XML
parser applied to cached files) are oracles passed in as function parameters.

The scanner `extract_equations` is embedded with a fuel parameter
(`content.length + 1` steps, enough because the cursor strictly advances);
running out of fuel is a distinguished result, so a `ValueError` of the Python
code corresponds exactly to `ScanResult.err (.valueError _)`.
-/

namespace Readme2Tex

/-- The backtick character (Python literal `` ` ``). -/
def btick : Char := Char.ofNat 96

/-- The opening brace character. -/
def lbrace : Char := Char.ofNat 123

/-- The closing brace character. -/
def rbrace : Char := Char.ofNat 125

/-- Python's `\w` on the ASCII plane: letters, digits and underscore.
(The documents considered here are ASCII.) -/
def isWordChar (c : Char) : Bool := c.isAlpha || c.isDigit || c = '_'

/-- The character class `[ \t]` of the fenced-code-block start pattern. -/
def isSpaceTab (c : Char) : Bool := c = ' ' || c = '\t'

/-- The character class `[\w*]` of the math-environment name. -/
def isEnvChar (c : Char) : Bool := isWordChar c || c = '*'

/-- Length of the longest prefix all of whose characters satisfy `p`
(the greedy match of `p*` at the head of the list). -/
def countLeading (p : Char → Bool) : List Char → Nat
  | [] => 0
  | c :: cs => if p c then countLeading p cs + 1 else 0

theorem countLeading_le (p : Char → Bool) : ∀ l : List Char, countLeading p l ≤ l.length
  | [] => Nat.le_refl 0
  | c :: cs => by
    unfold countLeading
    split
    · exact Nat.succ_le_succ (countLeading_le p cs)
    · exact Nat.zero_le _

/-- A match of one alternative of the start pattern
`([`]{3,})[ \t]*(\w+)?[ \t]*|\\begin\{([\w*]+)\}` of `extract_equations`.
`fence ticks lang len`: a fenced-code-block opener made of `ticks` backticks
(match group 1), optional language tag `lang` (match group 2), total matched
length `len`.  `env name len`: a `\begin{name}` opener (group 3), matched
length `len`. -/
inductive StartTok where
  | fence (ticks : Nat) (lang : Option (List Char)) (len : Nat)
  | env (name : List Char) (len : Nat)
deriving Repr, DecidableEq

/-- The length of the text matched by the start pattern
(`startMatch.end() - startMatch.start()` in the Python code). -/
def StartTok.matchLen : StartTok → Nat
  | .fence _ _ n => n
  | .env _ n => n

/-- Greedy match of the fenced-code-block alternative
`([`]{3,})[ \t]*(\w+)?[ \t]*` at the head of `s`.  All four parts munch
maximally; the match succeeds iff at least three backticks are present. -/
def matchFence (s : List Char) : Option StartTok :=
  let k := countLeading (fun c => c = btick) s
  if k < 3 then none
  else
    let r1 := s.drop k
    let w1 := countLeading isSpaceTab r1
    let r2 := r1.drop w1
    let lw := countLeading isWordChar r2
    let lang := if lw = 0 then none else some (r2.take lw)
    let r3 := r2.drop lw
    let w2 := countLeading isSpaceTab r3
    some (.fence k lang (k + w1 + lw + w2))

/-- The literal text `\begin{` that opens a math environment. -/
def beginLit : List Char := "\\begin".toList ++ [lbrace]

/-- Match of the math-environment alternative `\\begin\{([\w*]+)\}` at the
head of `s`: the literal `\begin{`, a nonempty run of `[\w*]` characters,
then `}`. -/
def matchBegin (s : List Char) : Option StartTok :=
  if beginLit.isPrefixOf s then
    let r := s.drop 7
    let ew := countLeading isEnvChar r
    if ew = 0 then none
    else if (r.drop ew).head? = some rbrace then
      some (.env (r.take ew) (7 + ew + 1))
    else none
  else none

/-- `re.search` of the start pattern: scan positions left to right; at each
position try the fenced-block alternative first, then the environment
alternative (they are mutually exclusive anyway, one starts with a backtick
and the other with a backslash).  Returns the match offset and the token. -/
def searchStart : List Char → Option (Nat × StartTok)
  | [] => none
  | c :: cs =>
    match matchFence (c :: cs) with
    | some t => some (0, t)
    | none =>
      match matchBegin (c :: cs) with
      | some t => some (0, t)
      | none => (searchStart cs).map (fun p => (p.1 + 1, p.2))

/-- `re.search` of a literal pattern: the first offset at which `pat` occurs
as a substring (the end patterns of `extract_equations` are literal texts:
a run of backticks, or `\end{name}` with the name `re.escape`d). -/
def findSubstring (pat : List Char) : List Char → Option Nat
  | [] => if pat.isPrefixOf ([] : List Char) then some 0 else none
  | c :: cs =>
    if pat.isPrefixOf (c :: cs) then some 0
    else (findSubstring pat cs).map (fun n => n + 1)

/-- A math span yielded by `extract_equations`: the tuple
`(equation, start, end, block)` of the Python generator. -/
structure MathSpan where
  expression : List Char
  start : Nat
  stop : Nat
  isBlock : Bool
deriving Repr, DecidableEq

/-- A failure of the scan: the `ValueError` raised by `extract_equations`,
or exhaustion of the fuel used to embed the `while True` loop (the latter is
unreachable from `extract_equations`, whose fuel covers every run). -/
inductive ScanErr where
  | valueError (msg : List Char)
  | fuelExhausted
deriving Repr, DecidableEq

/-- Result of a scan: the list of yielded spans, or an error. -/
inductive ScanResult where
  | ok (spans : List MathSpan)
  | err (e : ScanErr)
deriving Repr, DecidableEq

/-- The designated math language tag of fenced blocks. -/
def texLit : List Char := "tex".toList

/-- The inline math environment name. -/
def mathLit : List Char := "math".toList

/-- The literal text `\end{` opening an environment closer. -/
def endLit : List Char := "\\end".toList ++ [lbrace]

/-- `re.escape` restricted to the characters a matched environment name can
contain (`[\w*]`): `*` gains a backslash, word characters are unchanged. -/
def reEscape (nm : List Char) : List Char :=
  nm.flatMap (fun c => if c = '*' then ['\\', c] else [c])

/-- The pattern text quoted by the `ValueError` message for an unmatched
environment opener: the regex source `\\end\{name-escaped\}` — the raw
string `r'\\end\{'` of render.py:158 carries two leading backslashes (the
regex escape of the literal backslash), then the escaped name, then the
two characters `\}`. -/
def envErrPattern (nm : List Char) : List Char :=
  "\\\\end\\".toList ++ [lbrace] ++ reEscape nm ++ ['\\', rbrace]

/-- The `ValueError` message `cannot find ending match for pattern: "..."`. -/
def errMsgOf (pat : List Char) : List Char :=
  "cannot find ending match for pattern: \"".toList ++ pat ++ ['\"']

/-- The literal closer text searched for a given opener: the same backtick
run for a fence, `\end{name}` for an environment. -/
def endSearchPat : StartTok → List Char
  | .fence k _ _ => List.replicate k btick
  | .env nm _ => endLit ++ nm ++ [rbrace]

/-- The pattern text named by the `ValueError` message for a given opener. -/
def errPatternOf : StartTok → List Char
  | .fence k _ _ => List.replicate k btick
  | .env nm _ => envErrPattern nm

/-- The `while True` loop of `extract_equations`, one fuel unit per
iteration.  `contentInd` is the cursor.  Mirrors the source line by line:
the loop breaks when `contentInd >= len(content) - 1`; otherwise the start
pattern is searched in `content[contentInd:]`; a fence yields only the inner
text (span offsets still cover the delimiters) and only when the language
tag is exactly `tex`; an environment yields the full delimited text, inline
iff the name is `math`; an opener without a closer raises `ValueError`. -/
def scanLoop : Nat → List Char → Nat → ScanResult
  | 0, _, _ => .err .fuelExhausted
  | fuel + 1, content, contentInd =>
    if contentInd + 1 ≥ content.length then .ok []
    else
      match searchStart (content.drop contentInd) with
      | none => .ok []
      | some (i, .fence k lang ml) =>
        match findSubstring (List.replicate k btick) ((content.drop contentInd).drop (i + ml)) with
        | none => .err (.valueError (errMsgOf (List.replicate k btick)))
        | some j =>
          match scanLoop fuel content (contentInd + i + ml + (j + k)) with
          | .err e => .err e
          | .ok spans =>
            if lang = some texLit then
              .ok ({ expression := ((content.drop contentInd).drop (i + ml)).take j,
                     start := contentInd + i,
                     stop := contentInd + i + ml + (j + k), isBlock := true } :: spans)
            else .ok spans
      | some (i, .env nm ml) =>
        match findSubstring (endLit ++ nm ++ [rbrace]) ((content.drop contentInd).drop (i + ml)) with
        | none => .err (.valueError (errMsgOf (envErrPattern nm)))
        | some j =>
          match scanLoop fuel content (contentInd + i + ml + (j + (endLit ++ nm ++ [rbrace]).length)) with
          | .err e => .err e
          | .ok spans =>
            .ok ({ expression := (content.drop (contentInd + i)).take (ml + (j + (endLit ++ nm ++ [rbrace]).length)),
                   start := contentInd + i,
                   stop := contentInd + i + ml + (j + (endLit ++ nm ++ [rbrace]).length),
                   isBlock := decide (nm ≠ mathLit) } :: spans)

/-- `extract_equations(content)`, run to completion: fuel
`content.length + 1` suffices because the cursor strictly advances at every
iteration. -/
def extract_equations (content : List Char) : ScanResult :=
  scanLoop (content.length + 1) content 0

/-- Structural facts about a matched start token: a fence has at least three
backticks and they are part of the matched text; an environment match has
the exact length of `\begin{name}`. -/
def StartTok.wf : StartTok → Prop
  | .fence k _ ml => 3 ≤ k ∧ k ≤ ml
  | .env nm ml => ml = nm.length + 8

theorem matchFence_wf {s : List Char} {t : StartTok} (h : matchFence s = some t) : t.wf := by
  simp only [matchFence] at h
  split at h
  · exact absurd h (by simp)
  · rename_i hk
    cases h
    exact ⟨Nat.le_of_not_lt hk, by omega⟩

theorem matchBegin_wf {s : List Char} {t : StartTok} (h : matchBegin s = some t) : t.wf := by
  simp only [matchBegin] at h
  split at h
  · split at h
    · exact absurd h (by simp)
    · split at h
      · rename_i hew _
        cases h
        show 7 + _ + 1 = _ + 8
        have : ((s.drop 7).take (countLeading isEnvChar (s.drop 7))).length
            = countLeading isEnvChar (s.drop 7) := by
          rw [List.length_take]
          exact Nat.min_eq_left (countLeading_le _ _)
        omega
      · exact absurd h (by simp)
  · exact absurd h (by simp)

theorem searchStart_wf : ∀ {s : List Char} {i : Nat} {t : StartTok},
    searchStart s = some (i, t) → t.wf := by
  intro s
  induction s with
  | nil => intro i t h; exact absurd h (by simp [searchStart])
  | cons c cs ih =>
    intro i t h
    unfold searchStart at h
    split at h
    · rename_i hf; cases h; exact matchFence_wf hf
    · split at h
      · rename_i hb; cases h; exact matchBegin_wf hb
      · rcases Option.map_eq_some'.1 h with ⟨⟨i', t'⟩, hs, he⟩
        cases he
        exact ih hs

theorem endLit_length : endLit.length = 5 := rfl

/-- Any successful scan yields spans with positive extent, all starting at or
after the cursor, pairwise non-overlapping in document order. -/
theorem scanLoop_ok_ordered : ∀ (fuel : Nat) (content : List Char) (ind : Nat)
    (spans : List MathSpan), scanLoop fuel content ind = .ok spans →
    (∀ sp ∈ spans, ind ≤ sp.start ∧ sp.start < sp.stop) ∧
    List.Pairwise (fun a b => a.stop ≤ b.start) spans := by
  intro fuel
  induction fuel with
  | zero => intro content ind spans h; exact absurd h (by simp [scanLoop])
  | succ f ih =>
    intro content ind spans h
    rw [scanLoop] at h
    split at h
    · cases h; exact ⟨by simp, List.Pairwise.nil⟩
    split at h
    · cases h; exact ⟨by simp, List.Pairwise.nil⟩
    · -- fenced-code-block opener
      rename_i i k lang ml hs
      have hwf : (StartTok.fence k lang ml).wf := searchStart_wf hs
      obtain ⟨hk3, hkml⟩ := hwf
      split at h
      · exact absurd h (by simp)
      · rename_i j hj
        split at h
        · exact absurd h (by simp)
        · rename_i spans' hrec
          obtain ⟨hlo, hpw⟩ := ih content (ind + i + ml + (j + k)) spans' hrec
          split at h
          · cases h
            refine ⟨?_, ?_⟩
            · intro sp hsp
              rcases List.mem_cons.1 hsp with rfl | hsp
              · exact ⟨Nat.le_add_right _ _, by show ind + i < ind + i + ml + (j + k); omega⟩
              · have := (hlo sp hsp).1
                exact ⟨by omega, (hlo sp hsp).2⟩
            · exact List.Pairwise.cons (fun sp hsp => (hlo sp hsp).1) hpw
          · cases h
            refine ⟨fun sp hsp => ⟨?_, (hlo sp hsp).2⟩, hpw⟩
            have := (hlo sp hsp).1
            omega
    · -- math-environment opener
      rename_i i nm ml hs
      have hwf : (StartTok.env nm ml).wf := searchStart_wf hs
      have hml : ml = nm.length + 8 := hwf
      split at h
      · exact absurd h (by simp)
      · rename_i j hj
        split at h
        · exact absurd h (by simp)
        · rename_i spans' hrec
          obtain ⟨hlo, hpw⟩ := ih content (ind + i + ml + (j + (endLit ++ nm ++ [rbrace]).length)) spans' hrec
          cases h
          refine ⟨?_, ?_⟩
          · intro sp hsp
            rcases List.mem_cons.1 hsp with rfl | hsp
            · refine ⟨Nat.le_add_right _ _, ?_⟩
              show ind + i < ind + i + ml + (j + (endLit ++ nm ++ [rbrace]).length)
              have : (endLit ++ nm ++ [rbrace]).length = nm.length + 6 := by
                simp only [List.length_append, endLit_length, List.length_cons, List.length_nil]
                omega
              omega
            · have := (hlo sp hsp).1
              exact ⟨by omega, (hlo sp hsp).2⟩
          · exact List.Pairwise.cons (fun sp hsp => (hlo sp hsp).1) hpw

/-- C2: for every document on which the scan completes without a structural
error, the yielded sequence of spans is finite (a list), every span has
`start < stop`, and the spans are strictly increasing and non-overlapping in
document order (each span ends at or before the next one starts). -/
theorem claim2_scan_ordered (content : List Char) (spans : List MathSpan)
    (h : extract_equations content = .ok spans) :
    (∀ sp ∈ spans, sp.start < sp.stop) ∧
    List.Pairwise (fun a b => a.stop ≤ b.start) spans := by
  obtain ⟨hlo, hpw⟩ := scanLoop_ok_ordered (content.length + 1) content 0 spans h
  exact ⟨fun sp hsp => (hlo sp hsp).2, hpw⟩

/-- Witness for C2 on a document with one fenced `tex` block and one math
environment. -/
theorem claim2_scan_ordered_witness :
    (∀ sp ∈ ([⟨"a".toList, 0, 11, true⟩,
              ⟨"\\begin\x7bmath\x7dx\\end\x7bmath\x7d".toList, 12, 35, false⟩] : List MathSpan),
       sp.start < sp.stop) ∧
    List.Pairwise (fun a b : MathSpan => a.stop ≤ b.start)
      ([⟨"a".toList, 0, 11, true⟩,
        ⟨"\\begin\x7bmath\x7dx\\end\x7bmath\x7d".toList, 12, 35, false⟩] : List MathSpan) :=
  claim2_scan_ordered "```tex a```\n\\begin\x7bmath\x7dx\\end\x7bmath\x7d".toList
    [⟨"a".toList, 0, 11, true⟩,
     ⟨"\\begin\x7bmath\x7dx\\end\x7bmath\x7d".toList, 12, 35, false⟩] (by decide)

/-- C3: a fenced block opened with four backticks tagged `tex` containing
`E=mc^2` yields exactly one block span whose expression is exactly the inner
content `E=mc^2`, delimiters excluded; and a fenced block tagged `python`
yields no span while the cursor still advances past the block (the math
environment after it is still found). -/
theorem claim3_fenced_blocks :
    extract_equations "````tex E=mc^2````".toList =
      .ok [⟨"E=mc^2".toList, 0, 18, true⟩] ∧
    extract_equations "````python x````\\begin\x7bmath\x7dy\\end\x7bmath\x7d".toList =
      .ok [⟨"\\begin\x7bmath\x7dy\\end\x7bmath\x7d".toList, 16, 39, false⟩] := by
  constructor <;> decide

/-- C4: whenever the scan finds a math-environment opener `\begin{nm}` and a
matching closer, the yielded span covers the opener through the closer
inclusive — its expression is exactly the text of the interval
`[start, stop)`, delimiters included — and it is classified inline
(`isBlock = false`) exactly when the environment name is `math`. -/
theorem claim4_env_spans_cover (f : Nat) (content : List Char) (ind i : Nat)
    (nm : List Char) (ml j : Nat) (spans : List MathSpan)
    (hg : ind + 1 < content.length)
    (hs : searchStart (content.drop ind) = some (i, .env nm ml))
    (he : findSubstring (endLit ++ nm ++ [rbrace]) ((content.drop ind).drop (i + ml)) = some j)
    (hrec : scanLoop f content (ind + i + ml + (j + (endLit ++ nm ++ [rbrace]).length)) = .ok spans) :
    scanLoop (f + 1) content ind =
      .ok ({ expression := (content.drop (ind + i)).take (ml + (j + (endLit ++ nm ++ [rbrace]).length)),
             start := ind + i,
             stop := ind + i + ml + (j + (endLit ++ nm ++ [rbrace]).length),
             isBlock := decide (nm ≠ mathLit) } :: spans) ∧
    (decide (nm ≠ mathLit) = false ↔ nm = mathLit) ∧
    (content.drop (ind + i)).take (ml + (j + (endLit ++ nm ++ [rbrace]).length)) =
      (content.drop (ind + i)).take
        ((ind + i + ml + (j + (endLit ++ nm ++ [rbrace]).length)) - (ind + i)) := by
  have hgn : ¬(ind + 1 ≥ content.length) := by omega
  refine ⟨?_, by simp, by congr 1; omega⟩
  rw [scanLoop]
  simp only [hgn, if_false, hs, he, hrec]

/-- Witness for C4: the document `Some text \begin{math}x^2\end{math} here`
yields exactly one inline span spanning the delimited text. -/
theorem claim4_env_spans_cover_witness :
    extract_equations "Some text \\begin\x7bmath\x7dx^2\\end\x7bmath\x7d here".toList =
      .ok [⟨"\\begin\x7bmath\x7dx^2\\end\x7bmath\x7d".toList, 10, 35, false⟩] := by
  have h := claim4_env_spans_cover 40 "Some text \\begin\x7bmath\x7dx^2\\end\x7bmath\x7d here".toList
    0 10 mathLit 12 3 [] (by decide) (by decide) (by decide) (by decide)
  exact h.1.trans (by decide)

/-- C5: whenever the scan finds an opener (fenced block or math environment)
whose closing pattern occurs nowhere in the remaining document, it fails
with the structural `ValueError` naming the unmatched pattern
(`cannot find ending match for pattern: "..."`), rather than skipping it. -/
theorem claim5_unmatched_opener_fatal (f : Nat) (content : List Char) (ind i : Nat)
    (tok : StartTok)
    (hg : ind + 1 < content.length)
    (hs : searchStart (content.drop ind) = some (i, tok))
    (he : findSubstring (endSearchPat tok) ((content.drop ind).drop (i + tok.matchLen)) = none) :
    scanLoop (f + 1) content ind = .err (.valueError (errMsgOf (errPatternOf tok))) := by
  have hgn : ¬(ind + 1 ≥ content.length) := by omega
  cases tok with
  | fence k lang ml =>
    simp only [endSearchPat, StartTok.matchLen] at he
    rw [scanLoop]
    simp only [hgn, if_false, hs, he, errPatternOf]
  | env nm ml =>
    simp only [endSearchPat, StartTok.matchLen] at he
    rw [scanLoop]
    simp only [hgn, if_false, hs, he, errPatternOf]

/-- Witness for C5: a document with a fenced `tex` opener and no closing
fence fails with the error naming the three-backtick pattern, and a
document with an unmatched `\begin{foo}` fails with the error quoting the
regex source `\\end\{foo\}`. -/
theorem claim5_unmatched_opener_fatal_witness :
    extract_equations "abc```tex\nx".toList =
      .err (.valueError "cannot find ending match for pattern: \"```\"".toList) ∧
    extract_equations "ab\\begin\x7bfoo\x7d x".toList =
      .err (.valueError
        "cannot find ending match for pattern: \"\\\\end\\\x7bfoo\\\x7d\"".toList) := by
  constructor
  · have h := claim5_unmatched_opener_fatal 11 "abc```tex\nx".toList 0 3
      (.fence 3 (some texLit) 6) (by decide) (by decide) (by decide)
    exact h.trans (by decide)
  · have h := claim5_unmatched_opener_fatal 15 "ab\\begin\x7bfoo\x7d x".toList 0 2
      (.env "foo".toList 11) (by decide) (by decide) (by decide)
    exact h.trans (by decide)

/-!
## The render pipeline (`render` in `render.py`)

SVG documents are structured values: a `use` element carries its `x`
attribute as the raw attribute string (the code compares those strings with
`!=`) together with its parsed `y` coordinate; the root carries the four
`viewBox` numbers (`vb0`..`vb3` are `viewBox[0]`, `[1]`, `[-2]`, `[-1]`:
min-x, min-y, width, height) and the `width`/`height` attributes in points.
Attribute-string-to-float parsing (`float(...)` in Python) is an oracle
`fp`.  Floats are idealised as `ℚ`.
-/

/-- A `use` element inside the `g` group of a rendered SVG. -/
structure Use where
  x : List Char
  y : ℚ
deriving Repr, DecidableEq

/-- A raw SVG as produced by `dvisvgm` and parsed by `ET.fromstring`:
`g = none` models a document with no `<g>` element (in which case the code
crashes on `gfill.set`). -/
structure RawSvg where
  vb0 : ℚ
  vb1 : ℚ
  vb2 : ℚ
  vb3 : ℚ
  widthPt : ℚ
  heightPt : ℚ
  g : Option (List Use)
deriving Repr, DecidableEq

/-- A normalized SVG: the state of the XML tree at the end of the fresh
render path, after opacity normalization, viewBox/width/height rewriting,
dummy-use removal, and embedding of the `readme2tex:offset` attribute. -/
structure NormSvg where
  vb0 : ℚ
  vb1 : ℚ
  vb2 : ℚ
  vb3 : ℚ
  widthPt : ℚ
  heightPt : ℚ
  uses : List Use
  fillOpacity : ℚ
  offsetAttr : ℚ
deriving Repr, DecidableEq

/-- Python `min` of a nonempty list, folded from the head. -/
def minList (a : ℚ) : List ℚ → ℚ
  | [] => a
  | b :: r => minList (min a b) r

/-- `min(cands or [dflt])`: Python `min` with the `or`-fallback used at
render.py:257 for the case where every candidate was filtered away. -/
def pyMin (dflt : ℚ) : List ℚ → ℚ
  | [] => dflt
  | a :: r => minList a r

/-- The recomputed horizontal origin of the view region (render.py:257):
`min(list(float(next.attrib['x']) for next in uses if next.attrib['x'] != x)
or [float(x)])` — the minimum parsed `x` over the use elements whose `x`
attribute string differs from the first use's, falling back to the first
use's own `x`. -/
def codeNewMinX (fp : List Char → ℚ) (u0 : Use) (uses : List Use) : ℚ :=
  pyMin (fp u0.x) ((uses.filter (fun u => u.x != u0.x)).map (fun u => fp u.x))

/-- Modelled from the spec's words for C8 (not from the code): the minimum
horizontal anchor taken over all reference elements excluding exactly the
first one.  `none` when there is no element besides the first. -/
def claimedNewMinX (fp : List Char → ℚ) (uses : List Use) : Option ℚ :=
  match uses with
  | [] => none
  | _ :: rest =>
    match rest.map (fun u => fp u.x) with
    | [] => none
    | a :: r => some (minList a r)

/-- The SVG normalization performed inline in `render` (render.py:243-284)
on a freshly rendered SVG.  Block math: baseline offset 0, opacity only.
Inline math: baseline offset computed from the first (dummy) use element,
horizontal origin recomputed, the dummy use removed, and (unless `valign`
layout is selected) the box extended downward or upward to centre the glyph.
`none` models the Python exceptions when the `g` element or the use
elements expected from the renderer are absent. -/
def normalize (fp : List Char → ℚ) (use_valign : Bool) (raw : RawSvg) (block : Bool) :
    Option (NormSvg × ℚ) :=
  match raw.g with
  | none => none
  | some uses =>
    if block then
      some ({ vb0 := raw.vb0, vb1 := raw.vb1, vb2 := raw.vb2, vb3 := raw.vb3,
              widthPt := raw.widthPt, heightPt := raw.heightPt,
              uses := uses, fillOpacity := 9/10, offsetAttr := 0 }, 0)
    else
      match uses with
      | [] => none
      | u0 :: rest =>
        let y := u0.y
        let baseline_offset := raw.vb3 - (y - raw.vb1)
        let newMinX := codeNewMinX fp u0 (u0 :: rest)
        let newW := raw.vb2 - |newMinX - raw.vb0|
        let top := y - raw.vb1
        let bottom := baseline_offset
        if use_valign then
          some ({ vb0 := newMinX, vb1 := raw.vb1, vb2 := newW, vb3 := raw.vb3,
                  widthPt := newW, heightPt := raw.heightPt,
                  uses := rest, fillOpacity := 9/10, offsetAttr := baseline_offset },
                baseline_offset)
        else if top > bottom then
          some ({ vb0 := newMinX, vb1 := raw.vb1, vb2 := newW, vb3 := 2 * top,
                  widthPt := newW, heightPt := 2 * top,
                  uses := rest, fillOpacity := 9/10, offsetAttr := baseline_offset },
                baseline_offset)
        else
          some ({ vb0 := newMinX, vb1 := raw.vb1 - (2 * bottom - bottom - top),
                  vb2 := newW, vb3 := 2 * bottom,
                  widthPt := newW, heightPt := 2 * bottom,
                  uses := rest, fillOpacity := 9/10, offsetAttr := baseline_offset },
                baseline_offset)

/-- A log line emitted by the cache lookup: `logging.info("Cannot find %s:%s"...)`
or `logging.warning("Cached SVG file for %s is corrupt, rerendering.", ...)`. -/
inductive LogMsg where
  | info (path : List Char)
  | warning (path : List Char)
deriving Repr, DecidableEq

/-- The SVG stored in the equation map: the raw cached file text on a cache
hit, or the normalized tree on a fresh render. -/
inductive SvgVal where
  | cached (raw : List Char)
  | rendered (ns : NormSvg)
deriving Repr, DecidableEq

/-- One entry of `equation_map`: the tuple `(svg, name, dvi, offset)`.
`fresh` is the truthiness of the `dvi` component (`None` on cache hits),
which is also what schedules the artifact for persistence. -/
structure Artifact where
  svg : SvgVal
  name : List Char
  fresh : Bool
  offset : ℚ
deriving Repr, DecidableEq

/-- The context of one `render` run: configuration plus the external
collaborators.  `hashF` is the md5 hex digest of an expression; `gitShow`
reads `branch:path` from the repository (`none` = the `git show` call
failed); `readFile` reads a local file (`none` = `os.path.exists` false);
`parseOffset` parses a cached SVG text and extracts its
`readme2tex:offset` attribute (`none` = `ET.fromstring`/attribute/`float`
raised, i.e. a corrupt cached artifact); `texRender` is the external
LaTeX + dvisvgm toolchain; `fp` parses attribute strings to numbers;
`cachedDims` reads the width/height attributes of a cached SVG text. -/
structure ResolveCtx where
  branch : Option (List Char)
  rerender : Bool
  use_valign : Bool
  svgdir : List Char
  hashF : List Char → List Char
  gitShow : List Char → Option (List Char)
  readFile : List Char → Option (List Char)
  parseOffset : List Char → Option ℚ
  texRender : List Char → Bool → RawSvg
  fp : List Char → ℚ
  cachedDims : List Char → ℚ × ℚ

/-- `svg_path = os.path.join(svgdir, name + '.svg')`. -/
def svgPathOf (ctx : ResolveCtx) (name : List Char) : List Char :=
  ctx.svgdir ++ '/' :: (name ++ ".svg".toList)

/-- The cache read of render.py:221-229: with a historical branch, try
`git show branch:path` and log at info level on failure; otherwise read the
local file if it exists (silently treating absence as a miss). -/
def fetchSvg (ctx : ResolveCtx) (name : List Char) : Option (List Char) × List LogMsg :=
  match ctx.branch with
  | some b =>
    match ctx.gitShow (b ++ ':' :: svgPathOf ctx name) with
    | some s => (some s, [])
    | none => (none, [.info (b ++ ':' :: svgPathOf ctx name)])
  | none => (ctx.readFile (svgPathOf ctx name), [])

/-- The outcome of resolving one expression: the artifact (`none` models an
uncaught exception in the fresh-render path), whether the external renderer
was invoked, and the log lines produced. -/
structure ResolveOut where
  result : Option Artifact
  rendered : Bool
  logs : List LogMsg
deriving Repr, DecidableEq

/-- The fresh-render path (render.py:240-287): invoke the external
toolchain, normalize the SVG, embed the offset, and mark the artifact
fresh. -/
def freshResolve (ctx : ResolveCtx) (expr : List Char) (block : Bool)
    (name : List Char) (logs : List LogMsg) : ResolveOut :=
  match normalize ctx.fp ctx.use_valign (ctx.texRender expr block) block with
  | none => { result := none, rendered := true, logs := logs }
  | some (ns, off) =>
    { result := some { svg := .rendered ns, name := name, fresh := true, offset := off },
      rendered := true, logs := logs }

/-- Resolution of one (not-yet-seen) expression (render.py:217-287): try
the cache; on a hit without forced re-render, parse the stored artifact and
recover its embedded offset, returning a not-fresh artifact; if the stored
artifact is corrupt, log a warning and fall through to a fresh render; on a
miss (or forced re-render) render freshly. -/
def resolveOne (ctx : ResolveCtx) (expr : List Char) (block : Bool) : ResolveOut :=
  match (fetchSvg ctx (ctx.hashF expr)).1 with
  | some s =>
    if ctx.rerender then
      freshResolve ctx expr block (ctx.hashF expr) (fetchSvg ctx (ctx.hashF expr)).2
    else
      match ctx.parseOffset s with
      | some off =>
        { result := some { svg := .cached s, name := ctx.hashF expr, fresh := false,
                           offset := off },
          rendered := false, logs := (fetchSvg ctx (ctx.hashF expr)).2 }
      | none =>
        freshResolve ctx expr block (ctx.hashF expr)
          ((fetchSvg ctx (ctx.hashF expr)).2 ++ [.warning (svgPathOf ctx (ctx.hashF expr))])
  | none => freshResolve ctx expr block (ctx.hashF expr) (fetchSvg ctx (ctx.hashF expr)).2

/-- Lookup in the `seen` dictionary (expression text → position of its
first occurrence).  Entries are added by consing, so the head shadows older
entries, matching Python dict assignment. -/
def lookupSeen : List (List Char × (Nat × Nat)) → List Char → Option (Nat × Nat)
  | [], _ => none
  | (k, v) :: rest, e => if k = e then some v else lookupSeen rest e

/-- Lookup in the `equation_map` dictionary (span position → artifact). -/
def lookupPos : List ((Nat × Nat) × Artifact) → Nat × Nat → Option Artifact
  | [], _ => none
  | (k, v) :: rest, p => if k = p then some v else lookupPos rest p

/-- The state produced by the equation loop: the equation map, the list of
expressions sent to the external renderer (in order), and the log lines. -/
structure BuildOut where
  map : List ((Nat × Nat) × Artifact)
  renders : List (List Char)
  logs : List LogMsg
deriving Repr, DecidableEq

/-- The `for equation, start, end, block in equations` loop of `render`
(render.py:211-287): an expression already seen copies the map entry of its
first occurrence; otherwise it is recorded in `seen` and resolved, with its
own `isBlock` flag, through the cache.  `none` models an uncaught exception
(a `KeyError` on a seen expression without a map entry — unreachable — or a
failure of the fresh-render path). -/
def buildLoop (ctx : ResolveCtx) :
    List MathSpan → List (List Char × (Nat × Nat)) → List ((Nat × Nat) × Artifact) →
    List (List Char) → List LogMsg → Option BuildOut
  | [], _, m, r, lg => some ⟨m, r, lg⟩
  | sp :: rest, seen, m, r, lg =>
    match lookupSeen seen sp.expression with
    | some p =>
      match lookupPos m p with
      | some a => buildLoop ctx rest seen (((sp.start, sp.stop), a) :: m) r lg
      | none => none
    | none =>
      match (resolveOne ctx sp.expression sp.isBlock).result with
      | none => none
      | some a =>
        buildLoop ctx rest ((sp.expression, (sp.start, sp.stop)) :: seen)
          (((sp.start, sp.stop), a) :: m)
          (if (resolveOne ctx sp.expression sp.isBlock).rendered then r ++ [sp.expression] else r)
          (lg ++ (resolveOne ctx sp.expression sp.isBlock).logs)

/-- The equation map of one run, built from the scanner's spans. -/
def buildMap (ctx : ResolveCtx) (spans : List MathSpan) : Option BuildOut :=
  buildLoop ctx spans [] [] [] []

/-- The first span of the list carrying a given expression text. -/
def firstOcc (spans : List MathSpan) (e : List Char) : Option MathSpan :=
  spans.find? (fun sp => sp.expression == e)

/-- The artifact every span with expression `e` ends up mapped to: the one
resolved with the classification of the first occurrence of `e`. -/
def canonicalArtifact (ctx : ResolveCtx) (spans : List MathSpan) (e : List Char) :
    Option Artifact :=
  (firstOcc spans e).bind (fun sp0 => (resolveOne ctx e sp0.isBlock).result)

/-!
## The document rewriter (render.py:385-408)
-/

/-- The scale factor `1.65` applied to the artifact's declared width/height
(and to the vertical offset), idealised as an exact rational. -/
def scaleC : ℚ := 33 / 20

/-- The near-zero snap of render.py:389: `if abs(off) < 1e-2: off = 0`. -/
def snapOff (off : ℚ) : ℚ := if |off| < 1 / 100 then 0 else off

/-- The declared width/height (in points) of an artifact's SVG: parsed from
the stored text for a cache hit, read off the normalized tree for a fresh
render. -/
def artifactDims (ctx : ResolveCtx) (a : Artifact) : ℚ × ℚ :=
  match a.svg with
  | .cached s => ctx.cachedDims s
  | .rendered ns => (ns.widthPt, ns.heightPt)

/-- The image markup generated for one span (render.py:387-407), as a
structured value: alt text, referenced artifact name, the `valign` pixel
offset (`none` when `align="middle"` is emitted instead), scaled width and
height, and whether the `<p align="center">` wrapper is added. -/
structure Img where
  alt : List Char
  name : List Char
  valign : Option ℚ
  width : ℚ
  height : ℚ
  centered : Bool
deriving Repr, DecidableEq

/-- Build the image markup for a span from its artifact: the offset is
snapped to zero when within `1e-2` of zero, the dimensions are scaled by
`1.65`, `valign` is `-off * scale` only in explicit-valign mode, and the
centering wrapper is added exactly for block-classified spans. -/
def mkImg (ctx : ResolveCtx) (sp : MathSpan) (a : Artifact) : Img :=
  { alt := sp.expression,
    name := a.name,
    valign := if ctx.use_valign then some (-(snapOff a.offset) * scaleC) else none,
    width := (artifactDims ctx a).1 * scaleC,
    height := (artifactDims ctx a).2 * scaleC,
    centered := sp.isBlock }

/-- The sort key order of render.py:385: ascending lexicographic on
`(start, end)`. -/
def spanLE (a b : MathSpan) : Prop :=
  a.start < b.start ∨ (a.start = b.start ∧ a.stop ≤ b.stop)

instance : DecidableRel spanLE := fun a b =>
  decidable_of_iff (a.start < b.start ∨ (a.start = b.start ∧ a.stop ≤ b.stop)) Iff.rfl

instance : IsTotal MathSpan spanLE :=
  ⟨fun a b => by unfold spanLE; omega⟩

instance : IsTrans MathSpan spanLE :=
  ⟨fun a b c hab hbc => by unfold spanLE at *; omega⟩

/-- `sorted(equations, key=lambda x: (x[1], x[2]))[::-1]`: the spans in
descending `(start, end)` order (rightmost first). -/
def sortDesc (spans : List MathSpan) : List MathSpan :=
  (List.insertionSort spanLE spans).reverse

/-- The replacement loop of render.py:387-408: for each span in the given
order, splice `markup sp` over the `[start, stop)` range of the current
document (`new = new[:start] + img + new[end:]`; Python slices clamp
exactly like `take`/`drop`). -/
def rewriteLoop (markup : MathSpan → List Char) : List MathSpan → List Char → List Char
  | [], acc => acc
  | sp :: rest, acc =>
    rewriteLoop markup rest (acc.take sp.start ++ markup sp ++ acc.drop sp.stop)

/-- The whole rewriting pass: process the spans rightmost-first. -/
def rewriteDoc (markup : MathSpan → List Char) (spans : List MathSpan)
    (content : List Char) : List Char :=
  rewriteLoop markup (sortDesc spans) content

/-- Modelled from the spec's words for C7: the simultaneous substitution of
every span's markup at its original offsets, written out left to right for
spans given in ascending document order, `pos` being the offset already
consumed. -/
def simulSubstAux (markup : MathSpan → List Char) (content : List Char) :
    Nat → List MathSpan → List Char
  | pos, [] => content.drop pos
  | pos, sp :: rest =>
    (content.drop pos).take (sp.start - pos) ++ markup sp ++
      simulSubstAux markup content sp.stop rest

/-- Simultaneous substitution of all spans (sorted into document order). -/
def simulSubst (markup : MathSpan → List Char) (spans : List MathSpan)
    (content : List Char) : List Char :=
  simulSubstAux markup content 0 (List.insertionSort spanLE spans)

/-!
## Concrete oracles used by witnesses
-/

/-- Attribute-string parser for the concrete SVG documents of the witnesses:
unsigned decimal digit strings. -/
def fpDigits (s : List Char) : ℚ :=
  ((s.foldl (fun n c => n * 10 + (c.toNat - 48)) 0 : Nat) : ℚ)

/-- A baseline concrete context: no historical branch, empty local cache,
identity content hash, and an external renderer producing a fixed SVG with
an empty `g` group. -/
def ctx0 : ResolveCtx :=
  { branch := none, rerender := false, use_valign := false, svgdir := [],
    hashF := fun e => e,
    gitShow := fun _ => none,
    readFile := fun _ => none,
    parseOffset := fun _ => none,
    texRender := fun _ _ =>
      { vb0 := 0, vb1 := 0, vb2 := 1, vb3 := 1, widthPt := 1, heightPt := 1, g := some [] },
    fp := fun _ => 0,
    cachedDims := fun _ => (1, 1) }

/-- The concrete raw SVG exercising C8: three use elements, the first two
sharing the `x` attribute string `5`, the third at `7`. -/
def svgC8 : RawSvg :=
  { vb0 := 5, vb1 := 0, vb2 := 10, vb3 := 4, widthPt := 10, heightPt := 4,
    g := some [⟨"5".toList, 1⟩, ⟨"5".toList, 2⟩, ⟨"7".toList, 3⟩] }

/-!
## Theorems for the render pipeline claims
-/

/-- Counterexample to C8 as stated: for an inline SVG whose second use
element shares the first's `x` attribute, the recomputed horizontal origin
is `7` — the minimum over the elements whose anchor differs from the
first's — and not `5`, the minimum over all elements excluding exactly the
first, as the claim states. -/
theorem claim8_counterexample :
    (normalize fpDigits false svgC8 false).map (fun p => p.1.vb0) = some 7 ∧
    claimedNewMinX fpDigits [⟨"5".toList, 1⟩, ⟨"5".toList, 2⟩, ⟨"7".toList, 3⟩] = some 5 ∧
    (7 : ℚ) ≠ 5 := by
  refine ⟨by with_unfolding_all rfl, by with_unfolding_all rfl, by norm_num⟩

/-- C8 (amended): for every inline rendered image, the recomputed
horizontal origin is the minimum horizontal anchor over the reference
elements whose `x` attribute string differs from the first reference
element's (falling back to the first's own anchor when there is none); the
region's width shrinks by the distance the origin moved; and the first
reference element — and only it — is removed from the output. -/
theorem claim8_inline_normalize (fp : List Char → ℚ) (uv : Bool) (raw : RawSvg)
    (u0 : Use) (rest : List Use) (ns : NormSvg) (off : ℚ)
    (hg : raw.g = some (u0 :: rest))
    (h : normalize fp uv raw false = some (ns, off)) :
    ns.vb0 = codeNewMinX fp u0 (u0 :: rest) ∧
    ns.vb2 = raw.vb2 - |ns.vb0 - raw.vb0| ∧
    ns.widthPt = ns.vb2 ∧
    ns.uses = rest := by
  simp only [normalize, hg, Bool.false_eq_true, if_false] at h
  split at h
  · cases h; exact ⟨rfl, rfl, rfl, rfl⟩
  · split at h
    · cases h; exact ⟨rfl, rfl, rfl, rfl⟩
    · cases h; exact ⟨rfl, rfl, rfl, rfl⟩

/-- Witness for C8 (amended) on the concrete SVG `svgC8`. -/
theorem claim8_inline_normalize_witness :
    ({ vb0 := 7, vb1 := -2, vb2 := 8, vb3 := 6, widthPt := 8, heightPt := 6,
       uses := [⟨"5".toList, 2⟩, ⟨"7".toList, 3⟩], fillOpacity := 9/10,
       offsetAttr := 3 } : NormSvg).vb0 = codeNewMinX fpDigits ⟨"5".toList, 1⟩
        [⟨"5".toList, 1⟩, ⟨"5".toList, 2⟩, ⟨"7".toList, 3⟩] ∧
    ({ vb0 := 7, vb1 := -2, vb2 := 8, vb3 := 6, widthPt := 8, heightPt := 6,
       uses := [⟨"5".toList, 2⟩, ⟨"7".toList, 3⟩], fillOpacity := 9/10,
       offsetAttr := 3 } : NormSvg).vb2 = svgC8.vb2 - |(7 : ℚ) - svgC8.vb0| ∧
    ({ vb0 := 7, vb1 := -2, vb2 := 8, vb3 := 6, widthPt := 8, heightPt := 6,
       uses := [⟨"5".toList, 2⟩, ⟨"7".toList, 3⟩], fillOpacity := 9/10,
       offsetAttr := 3 } : NormSvg).uses = [⟨"5".toList, 2⟩, ⟨"7".toList, 3⟩] := by
  have h := claim8_inline_normalize fpDigits false svgC8 ⟨"5".toList, 1⟩
    [⟨"5".toList, 2⟩, ⟨"7".toList, 3⟩]
    { vb0 := 7, vb1 := -2, vb2 := 8, vb3 := 6, widthPt := 8, heightPt := 6,
      uses := [⟨"5".toList, 2⟩, ⟨"7".toList, 3⟩], fillOpacity := 9/10, offsetAttr := 3 }
    3 (by with_unfolding_all rfl) (by with_unfolding_all rfl)
  exact ⟨h.1, h.2.1, h.2.2.2⟩

/-- C9: in explicit-valign mode, a span whose artifact's baseline offset is
within `1e-2` of zero is emitted with vertical offset exactly `0`, and any
offset of magnitude at least `1e-2` is used unchanged (scaled by `1.65`). -/
theorem claim9_offset_snap (ctx : ResolveCtx) (sp : MathSpan) (a : Artifact)
    (hv : ctx.use_valign = true) :
    (|a.offset| < 1 / 100 → (mkImg ctx sp a).valign = some 0) ∧
    (1 / 100 ≤ |a.offset| → (mkImg ctx sp a).valign = some (-a.offset * scaleC)) := by
  constructor
  · intro h
    have hs : snapOff a.offset = 0 := by rw [snapOff, if_pos h]
    simp [mkImg, hv, hs]
  · intro h
    have hs : snapOff a.offset = a.offset := by rw [snapOff, if_neg (not_lt.mpr h)]
    simp [mkImg, hv, hs]

/-- Witness for C9: offset `1/200` snaps to zero, offset `5` is kept. -/
theorem claim9_offset_snap_witness :
    (mkImg { ctx0 with use_valign := true } ⟨[], 0, 0, false⟩
        ⟨.cached [], [], false, 1/200⟩).valign = some 0 ∧
    (mkImg { ctx0 with use_valign := true } ⟨[], 0, 0, false⟩
        ⟨.cached [], [], false, 5⟩).valign = some (-(5 : ℚ) * scaleC) :=
  ⟨(claim9_offset_snap { ctx0 with use_valign := true } ⟨[], 0, 0, false⟩
      ⟨.cached [], [], false, 1/200⟩ rfl).1 (by with_unfolding_all decide),
   (claim9_offset_snap { ctx0 with use_valign := true } ⟨[], 0, 0, false⟩
      ⟨.cached [], [], false, 5⟩ rfl).2 (by with_unfolding_all decide)⟩

/-- `rewriteLoop` processes an appended batch by processing the first batch
first. -/
theorem rewriteLoop_append (markup : MathSpan → List Char) (xs ys : List MathSpan) :
    ∀ c : List Char,
      rewriteLoop markup (xs ++ ys) c = rewriteLoop markup ys (rewriteLoop markup xs c) := by
  induction xs with
  | nil => intro c; rfl
  | cons sp rest ih => intro c; rw [List.cons_append, rewriteLoop, rewriteLoop, ih]

/-- The prefix of the document before every remaining span is untouched by
simultaneous substitution. -/
theorem simulSubstAux_take (markup : MathSpan → List Char) (rest : List MathSpan)
    (c : List Char) (k : Nat)
    (hb : ∀ sp ∈ rest, k ≤ sp.start ∧ sp.start ≤ c.length) :
    (simulSubstAux markup c 0 rest).take k = c.take k := by
  cases rest with
  | nil => simp [simulSubstAux]
  | cons sp r =>
    obtain ⟨hks, hsl⟩ := hb sp (List.mem_cons_self sp r)
    rw [simulSubstAux, List.drop_zero, Nat.sub_zero, List.append_assoc,
        List.take_append_of_le_length (by rw [List.length_take]; omega),
        List.take_take, Nat.min_eq_left hks]

/-- Dropping up to the next remaining span commutes with simultaneous
substitution: the substitution restarted at a later offset. -/
theorem simulSubstAux_drop (markup : MathSpan → List Char) :
    ∀ (rest : List MathSpan) (c : List Char) (p q : Nat), p ≤ q →
      (∀ sp ∈ rest, q ≤ sp.start ∧ sp.start ≤ c.length) →
      (simulSubstAux markup c p rest).drop (q - p) = simulSubstAux markup c q rest := by
  intro rest
  induction rest with
  | nil =>
    intro c p q hpq _
    rw [simulSubstAux, simulSubstAux, List.drop_drop]
    congr 1
    omega
  | cons sp r ih =>
    intro c p q hpq hb
    obtain ⟨hqs, hsl⟩ := hb sp (List.mem_cons_self sp r)
    rw [simulSubstAux, simulSubstAux, List.append_assoc, List.append_assoc,
        List.drop_append_of_le_length (by rw [List.length_take, List.length_drop]; omega)]
    congr 1
    rw [List.drop_take, List.drop_drop]
    congr 1
    · omega
    · congr 1
      omega

/-- Core of C7: replacing the spans of an ascending, non-overlapping,
in-bounds list from the rightmost to the leftmost equals the simultaneous
substitution of all of them. -/
theorem rewriteLoop_reverse_eq (markup : MathSpan → List Char) :
    ∀ (asc : List MathSpan) (c : List Char),
      (∀ sp ∈ asc, sp.start ≤ sp.stop ∧ sp.stop ≤ c.length) →
      List.Pairwise (fun a b => a.stop ≤ b.start) asc →
      rewriteLoop markup asc.reverse c = simulSubstAux markup c 0 asc := by
  intro asc
  induction asc with
  | nil => intro c _ _; rfl
  | cons sp rest ih =>
    intro c hb hpw
    obtain ⟨hb0, hbr⟩ : (sp.start ≤ sp.stop ∧ sp.stop ≤ c.length) ∧
        ∀ t ∈ rest, t.start ≤ t.stop ∧ t.stop ≤ c.length :=
      ⟨hb sp (List.mem_cons_self sp rest), fun t ht => hb t (List.mem_cons_of_mem sp ht)⟩
    rw [List.pairwise_cons] at hpw
    obtain ⟨hhead, htail⟩ := hpw
    rw [List.reverse_cons, rewriteLoop_append, ih c hbr htail]
    show (simulSubstAux markup c 0 rest).take sp.start ++ markup sp ++
        (simulSubstAux markup c 0 rest).drop sp.stop = _
    rw [simulSubstAux_take markup rest c sp.start
          (fun t ht => ⟨Nat.le_trans hb0.1 (hhead t ht), (hbr t ht).1.trans (hbr t ht).2⟩),
        show (simulSubstAux markup c 0 rest).drop sp.stop =
            simulSubstAux markup c sp.stop rest from by
          have := simulSubstAux_drop markup rest c 0 sp.stop (Nat.zero_le _)
            (fun t ht => ⟨hhead t ht, (hbr t ht).1.trans (hbr t ht).2⟩)
          rwa [Nat.sub_zero] at this]
    rw [simulSubstAux, List.drop_zero, Nat.sub_zero]

/-- C7: the rewriter processes the spans in descending `(start, end)` order,
each step splicing the span's markup over exactly its `[start, stop)` range;
for non-overlapping in-bounds spans the result equals the simultaneous
substitution of every span's markup at its original offsets. -/
theorem claim7_rewrite_simultaneous (markup : MathSpan → List Char)
    (spans : List MathSpan) (content : List Char)
    (hdisj : List.Pairwise (fun a b => a.stop ≤ b.start ∨ b.stop ≤ a.start) spans)
    (hb : ∀ sp ∈ spans, sp.start ≤ sp.stop ∧ sp.stop ≤ content.length) :
    rewriteDoc markup spans content = simulSubst markup spans content := by
  have hperm : (List.insertionSort spanLE spans).Perm spans :=
    List.perm_insertionSort spanLE spans
  have hsorted : List.Pairwise spanLE (List.insertionSort spanLE spans) :=
    List.sorted_insertionSort spanLE spans
  have hb' : ∀ sp ∈ List.insertionSort spanLE spans,
      sp.start ≤ sp.stop ∧ sp.stop ≤ content.length :=
    fun sp hsp => hb sp (hperm.mem_iff.1 hsp)
  have hdisj' : List.Pairwise (fun a b => a.stop ≤ b.start ∨ b.stop ≤ a.start)
      (List.insertionSort spanLE spans) :=
    (List.Perm.pairwise_iff (fun hab => hab.symm) hperm).2 hdisj
  have hord : List.Pairwise (fun a b : MathSpan => a.stop ≤ b.start)
      (List.insertionSort spanLE spans) := by
    refine (hsorted.and hdisj').imp_of_mem ?_
    intro a b ha hbm hab
    obtain ⟨hle, hdj⟩ := hab
    have hba := hb' a ha
    have hbb := hb' b hbm
    unfold spanLE at hle
    omega
  exact rewriteLoop_reverse_eq markup (List.insertionSort spanLE spans) content hb' hord

/-- An artifact produced by `freshResolve` carries the name it was given. -/
theorem freshResolve_name (ctx : ResolveCtx) (e : List Char) (b : Bool) (n : List Char)
    (lg : List LogMsg) (a : Artifact)
    (h : (freshResolve ctx e b n lg).result = some a) : a.name = n := by
  unfold freshResolve at h
  split at h
  · simp at h
  · simp at h
    subst h
    rfl

/-- Any artifact produced by `resolveOne` is named by the content hash of
its expression. -/
theorem resolveOne_name (ctx : ResolveCtx) (e : List Char) (b : Bool) (a : Artifact)
    (h : (resolveOne ctx e b).result = some a) : a.name = ctx.hashF e := by
  unfold resolveOne at h
  split at h
  · split at h
    · exact freshResolve_name _ _ _ _ _ _ h
    · split at h
      · simp at h
        subst h
        rfl
      · exact freshResolve_name _ _ _ _ _ _ h
  · exact freshResolve_name _ _ _ _ _ _ h

/-- `firstOcc` distributes over append. -/
theorem firstOcc_append (a b : List MathSpan) (e : List Char) :
    firstOcc (a ++ b) e = (firstOcc a e).or (firstOcc b e) := by
  unfold firstOcc
  exact List.find?_append

/-- A first occurrence belongs to the list and carries the expression. -/
theorem firstOcc_mem {spans : List MathSpan} {e : List Char} {sp : MathSpan}
    (h : firstOcc spans e = some sp) : sp ∈ spans ∧ sp.expression = e := by
  unfold firstOcc at h
  refine ⟨List.mem_of_find?_eq_some h, ?_⟩
  have := List.find?_some h
  simpa using this

/-- The head is its own first occurrence. -/
theorem firstOcc_cons_self (sp : MathSpan) (rest : List MathSpan) :
    firstOcc (sp :: rest) sp.expression = some sp := by
  unfold firstOcc
  simp [List.find?]

/-- A singleton holds no occurrence of a different expression. -/
theorem firstOcc_singleton_ne {sp : MathSpan} {e : List Char}
    (h : sp.expression ≠ e) : firstOcc [sp] e = none := by
  unfold firstOcc
  have hb : (sp.expression == e) = false := beq_eq_false_iff_ne.mpr h
  simp [List.find?, hb]

/-- `Option.or` with a `none` right operand is the identity. -/
theorem option_or_none {α : Type} (x : Option α) : x.or none = x := by
  cases x <;> rfl

/-- Positions in `done` differ from the position of the span being
processed, by no-duplicate positions of the whole list. -/
theorem pos_not_in_done {S done rest' : List MathSpan} {sp : MathSpan}
    (hS : S = done ++ sp :: rest')
    (hnd : (S.map (fun t => (t.start, t.stop))).Nodup) :
    ∀ t ∈ done, (t.start, t.stop) ≠ (sp.start, sp.stop) := by
  subst hS
  intro t ht heq
  rw [List.map_append, List.nodup_append] at hnd
  obtain ⟨-, -, hdisj⟩ := hnd
  exact hdisj (List.mem_map_of_mem _ ht) (by rw [heq]; simp)

/-- The inductive invariant of the equation loop: starting from a state
that corresponds to a processed prefix `done` of the full span list `S`
(the `seen` dictionary holds exactly the first occurrences of the prefix,
every processed span is mapped to the artifact canonically determined by
the first occurrence of its expression in `S`, and the renders so far are
distinct expressions of the prefix), a successful completion maps every
span of `S` to its canonical artifact and renders no expression twice. -/
theorem buildLoop_spec (ctx : ResolveCtx) (S : List MathSpan)
    (hnd : (S.map (fun t => (t.start, t.stop))).Nodup) :
    ∀ (todo done : List MathSpan) (seen : List (List Char × (Nat × Nat)))
      (m : List ((Nat × Nat) × Artifact)) (r : List (List Char)) (lg : List LogMsg)
      (out : BuildOut),
      S = done ++ todo →
      (∀ e, lookupSeen seen e = (firstOcc done e).map (fun t => (t.start, t.stop))) →
      (∀ t ∈ done, ∃ a, lookupPos m (t.start, t.stop) = some a ∧
          canonicalArtifact ctx S t.expression = some a) →
      r.Nodup →
      (∀ e ∈ r, (firstOcc done e).isSome = true) →
      buildLoop ctx todo seen m r lg = some out →
      (∀ t ∈ S, ∃ a, lookupPos out.map (t.start, t.stop) = some a ∧
          canonicalArtifact ctx S t.expression = some a) ∧
      out.renders.Nodup := by
  intro todo
  induction todo with
  | nil =>
    intro done seen m r lg out hS hseen hmap hrnd hrdone hbl
    rw [buildLoop] at hbl
    cases hbl
    rw [List.append_nil] at hS
    subst hS
    exact ⟨hmap, hrnd⟩
  | cons sp rest ih =>
    intro done seen m r lg out hS hseen hmap hrnd hrdone hbl
    have hposne : ∀ t ∈ done, (t.start, t.stop) ≠ (sp.start, sp.stop) :=
      pos_not_in_done hS hnd
    have hS' : S = (done ++ [sp]) ++ rest := by rw [List.append_assoc]; exact hS
    rw [buildLoop] at hbl
    split at hbl
    · -- the expression was seen before: copy the first occurrence's entry
      rename_i p hls
      split at hbl
      · rename_i a heqm
        rw [hseen sp.expression] at hls
        obtain ⟨spF, hF, hFp⟩ := Option.map_eq_some'.1 hls
        obtain ⟨hFmem, hFe⟩ := firstOcc_mem hF
        obtain ⟨aF, haF, hcanF⟩ := hmap spF hFmem
        rw [hFp, heqm] at haF
        cases haF
        rw [hFe] at hcanF
        refine ih (done ++ [sp]) seen (((sp.start, sp.stop), a) :: m) r lg out hS' ?_ ?_
          hrnd ?_ hbl
        · intro e
          rw [firstOcc_append]
          cases hfd : firstOcc done e with
          | some t =>
            rw [show (some t).or (firstOcc [sp] e) = some t from rfl, ← hfd]
            exact hseen e
          | none =>
            rw [show (Option.or none (firstOcc [sp] e)) = firstOcc [sp] e from rfl]
            have hne : sp.expression ≠ e := by
              intro hcontr
              rw [hcontr] at hF
              rw [hF] at hfd
              exact absurd hfd (by simp)
            rw [firstOcc_singleton_ne hne, hseen e, hfd]
        · intro t ht
          rcases List.mem_append.1 ht with htd | hts
          · obtain ⟨a', ha', hc'⟩ := hmap t htd
            refine ⟨a', ?_, hc'⟩
            rw [lookupPos, if_neg (Ne.symm (hposne t htd))]
            exact ha'
          · have : t = sp := by simpa using hts
            subst this
            exact ⟨a, by rw [lookupPos, if_pos rfl], hcanF⟩
        · intro e he
          rw [firstOcc_append]
          cases hfd : firstOcc done e with
          | some t => rfl
          | none =>
            have := hrdone e he
            rw [hfd] at this
            exact absurd this (by simp)
      · exact absurd hbl (by simp)
    · -- a fresh expression: resolve it with its own classification
      rename_i hls
      split at hbl
      · exact absurd hbl (by simp)
      · rename_i a hres
        rw [hseen sp.expression] at hls
        have hFd : firstOcc done sp.expression = none := by
          cases hfd : firstOcc done sp.expression with
          | none => rfl
          | some t => rw [hfd] at hls; exact absurd hls (by simp)
        have hcan : canonicalArtifact ctx S sp.expression = some a := by
          rw [canonicalArtifact, hS, firstOcc_append, hFd, Option.none_or,
              firstOcc_cons_self]
          exact hres
        refine ih (done ++ [sp]) ((sp.expression, (sp.start, sp.stop)) :: seen)
          (((sp.start, sp.stop), a) :: m) _ _ out hS' ?_ ?_ ?_ ?_ hbl
        · intro e
          rw [lookupSeen, firstOcc_append]
          by_cases he : sp.expression = e
          · subst he
            rw [if_pos rfl, hFd,
                show (Option.or none (firstOcc [sp] sp.expression)) =
                  firstOcc [sp] sp.expression from rfl,
                firstOcc_cons_self]
            rfl
          · rw [if_neg he, firstOcc_singleton_ne he, option_or_none]
            exact hseen e
        · intro t ht
          rcases List.mem_append.1 ht with htd | hts
          · obtain ⟨a', ha', hc'⟩ := hmap t htd
            refine ⟨a', ?_, hc'⟩
            rw [lookupPos, if_neg (Ne.symm (hposne t htd))]
            exact ha'
          · have : t = sp := by simpa using hts
            subst this
            exact ⟨a, by rw [lookupPos, if_pos rfl], hcan⟩
        · split
          · refine List.nodup_append.2 ⟨hrnd, List.nodup_singleton _, ?_⟩
            intro x hx hxs
            have hxe : x = sp.expression := by simpa using hxs
            subst hxe
            have hcon := hrdone _ hx
            rw [hFd] at hcon
            exact absurd hcon (by simp)
          · exact hrnd
        · intro e he
          rw [firstOcc_append]
          split at he
          · rcases List.mem_append.1 he with her | hes
            · cases hfd : firstOcc done e with
              | some t => rfl
              | none =>
                have := hrdone e her
                rw [hfd] at this
                exact absurd this (by simp)
            · have : e = sp.expression := by simpa using hes
              subst this
              rw [hFd,
                  show (Option.or none (firstOcc [sp] sp.expression)) =
                    firstOcc [sp] sp.expression from rfl,
                  firstOcc_cons_self]
              rfl
          · cases hfd : firstOcc done e with
            | some t => rfl
            | none =>
              have := hrdone e he
              rw [hfd] at this
              exact absurd this (by simp)

/-- C1: in every completed run, the external renderer is invoked at most
once per distinct expression text (the rendered expressions are pairwise
distinct); every span is mapped to an artifact named by the content hash of
its expression text; and spans with identical expression text are mapped to
the identical artifact, so the rewritten output references the same
artifact name at every location of that expression. -/
theorem claim1_dedup_unique_render (ctx : ResolveCtx) (spans : List MathSpan)
    (out : BuildOut)
    (hnd : (spans.map (fun t => (t.start, t.stop))).Nodup)
    (h : buildMap ctx spans = some out) :
    out.renders.Nodup ∧
    (∀ sp ∈ spans, ∃ a, lookupPos out.map (sp.start, sp.stop) = some a ∧
        a.name = ctx.hashF sp.expression) ∧
    (∀ sp1 ∈ spans, ∀ sp2 ∈ spans, sp1.expression = sp2.expression →
        lookupPos out.map (sp1.start, sp1.stop) = lookupPos out.map (sp2.start, sp2.stop)) := by
  obtain ⟨hall, hrnd⟩ := buildLoop_spec ctx spans hnd spans [] [] [] [] [] out rfl
    (fun e => rfl) (fun t ht => absurd ht (List.not_mem_nil t)) List.nodup_nil
    (fun e he => absurd he (List.not_mem_nil e)) h
  refine ⟨hrnd, ?_, ?_⟩
  · intro sp hsp
    obtain ⟨a, hla, hca⟩ := hall sp hsp
    refine ⟨a, hla, ?_⟩
    rw [canonicalArtifact] at hca
    obtain ⟨sp0, _, hres⟩ := Option.bind_eq_some.1 hca
    exact resolveOne_name ctx sp.expression sp0.isBlock a hres
  · intro sp1 h1 sp2 h2 he
    obtain ⟨a1, hla1, hca1⟩ := hall sp1 h1
    obtain ⟨a2, hla2, hca2⟩ := hall sp2 h2
    rw [he] at hca1
    have : a1 = a2 := Option.some.inj (hca1.symm.trans hca2)
    rw [hla1, hla2, this]

/-- Witness for C1: two spans with the same expression produce one render
and share one map entry. -/
theorem claim1_dedup_unique_render_witness :
    (BuildOut.renders ⟨[((2, 3), ⟨.rendered ⟨0, 0, 1, 1, 1, 1, [], 9/10, 0⟩,
          "x".toList, true, 0⟩), ((0, 1), ⟨.rendered ⟨0, 0, 1, 1, 1, 1, [], 9/10, 0⟩,
          "x".toList, true, 0⟩)], ["x".toList], []⟩).Nodup ∧
    (∀ sp ∈ ([⟨"x".toList, 0, 1, true⟩, ⟨"x".toList, 2, 3, true⟩] : List MathSpan),
      ∃ a, lookupPos (BuildOut.map ⟨[((2, 3), ⟨.rendered ⟨0, 0, 1, 1, 1, 1, [], 9/10, 0⟩,
          "x".toList, true, 0⟩), ((0, 1), ⟨.rendered ⟨0, 0, 1, 1, 1, 1, [], 9/10, 0⟩,
          "x".toList, true, 0⟩)], ["x".toList], []⟩) (sp.start, sp.stop) = some a ∧
        a.name = ctx0.hashF sp.expression) ∧
    (∀ sp1 ∈ ([⟨"x".toList, 0, 1, true⟩, ⟨"x".toList, 2, 3, true⟩] : List MathSpan),
      ∀ sp2 ∈ ([⟨"x".toList, 0, 1, true⟩, ⟨"x".toList, 2, 3, true⟩] : List MathSpan),
      sp1.expression = sp2.expression →
        lookupPos (BuildOut.map ⟨[((2, 3), ⟨.rendered ⟨0, 0, 1, 1, 1, 1, [], 9/10, 0⟩,
            "x".toList, true, 0⟩), ((0, 1), ⟨.rendered ⟨0, 0, 1, 1, 1, 1, [], 9/10, 0⟩,
            "x".toList, true, 0⟩)], ["x".toList], []⟩) (sp1.start, sp1.stop) =
          lookupPos (BuildOut.map ⟨[((2, 3), ⟨.rendered ⟨0, 0, 1, 1, 1, 1, [], 9/10, 0⟩,
            "x".toList, true, 0⟩), ((0, 1), ⟨.rendered ⟨0, 0, 1, 1, 1, 1, [], 9/10, 0⟩,
            "x".toList, true, 0⟩)], ["x".toList], []⟩) (sp2.start, sp2.stop)) :=
  claim1_dedup_unique_render ctx0
    [⟨"x".toList, 0, 1, true⟩, ⟨"x".toList, 2, 3, true⟩]
    ⟨[((2, 3), ⟨.rendered ⟨0, 0, 1, 1, 1, 1, [], 9/10, 0⟩, "x".toList, true, 0⟩),
      ((0, 1), ⟨.rendered ⟨0, 0, 1, 1, 1, 1, [], 9/10, 0⟩, "x".toList, true, 0⟩)],
     ["x".toList], []⟩
    (by decide) (by with_unfolding_all rfl)

/-- C10: deduplication is keyed solely on the expression text, ignoring the
inline/block classification — every span is mapped to the artifact resolved
with the classification of the *first* occurrence of its expression text,
while the centering wrapper of the generated markup is decided by each
span's own classification. -/
theorem claim10_dedup_ignores_classification (ctx : ResolveCtx) (spans : List MathSpan)
    (out : BuildOut)
    (hnd : (spans.map (fun t => (t.start, t.stop))).Nodup)
    (h : buildMap ctx spans = some out) :
    ∀ sp ∈ spans, ∃ sp0 a, firstOcc spans sp.expression = some sp0 ∧
      (resolveOne ctx sp.expression sp0.isBlock).result = some a ∧
      lookupPos out.map (sp.start, sp.stop) = some a ∧
      (mkImg ctx sp a).centered = sp.isBlock := by
  obtain ⟨hall, -⟩ := buildLoop_spec ctx spans hnd spans [] [] [] [] [] out rfl
    (fun e => rfl) (fun t ht => absurd ht (List.not_mem_nil t)) List.nodup_nil
    (fun e he => absurd he (List.not_mem_nil e)) h
  intro sp hsp
  obtain ⟨a, hla, hca⟩ := hall sp hsp
  rw [canonicalArtifact] at hca
  obtain ⟨sp0, hf0, hres⟩ := Option.bind_eq_some.1 hca
  exact ⟨sp0, a, hf0, hres, hla, rfl⟩

/-- Witness for C10: an inline first occurrence and a later block occurrence
of the same expression share the artifact resolved with the inline
classification, while the later span's markup is still centered. -/
theorem claim10_dedup_ignores_classification_witness :
    firstOcc [⟨"x".toList, 0, 1, false⟩, ⟨"x".toList, 2, 3, true⟩] "x".toList =
      some ⟨"x".toList, 0, 1, false⟩ ∧
    (resolveOne { ctx0 with texRender := fun _ b =>
        if b then ⟨0, 0, 1, 1, 1, 1, some []⟩
        else ⟨0, 0, 1, 1, 1, 1, some [⟨"0".toList, 0⟩]⟩ }
      "x".toList false).result =
      some ⟨.rendered ⟨0, -1, 1, 2, 1, 2, [], 9/10, 1⟩, "x".toList, true, 1⟩ ∧
    lookupPos (BuildOut.map ⟨[((2, 3), ⟨.rendered ⟨0, -1, 1, 2, 1, 2, [], 9/10, 1⟩,
        "x".toList, true, 1⟩), ((0, 1), ⟨.rendered ⟨0, -1, 1, 2, 1, 2, [], 9/10, 1⟩,
        "x".toList, true, 1⟩)], ["x".toList], []⟩) (2, 3) =
      some ⟨.rendered ⟨0, -1, 1, 2, 1, 2, [], 9/10, 1⟩, "x".toList, true, 1⟩ ∧
    (mkImg { ctx0 with texRender := fun _ b =>
        if b then ⟨0, 0, 1, 1, 1, 1, some []⟩
        else ⟨0, 0, 1, 1, 1, 1, some [⟨"0".toList, 0⟩]⟩ }
      ⟨"x".toList, 2, 3, true⟩
      ⟨.rendered ⟨0, -1, 1, 2, 1, 2, [], 9/10, 1⟩, "x".toList, true, 1⟩).centered = true := by
  obtain ⟨sp0, a, hf, hr, hl, hc⟩ := claim10_dedup_ignores_classification
    { ctx0 with texRender := fun _ b =>
        if b then ⟨0, 0, 1, 1, 1, 1, some []⟩
        else ⟨0, 0, 1, 1, 1, 1, some [⟨"0".toList, 0⟩]⟩ }
    [⟨"x".toList, 0, 1, false⟩, ⟨"x".toList, 2, 3, true⟩]
    ⟨[((2, 3), ⟨.rendered ⟨0, -1, 1, 2, 1, 2, [], 9/10, 1⟩, "x".toList, true, 1⟩),
      ((0, 1), ⟨.rendered ⟨0, -1, 1, 2, 1, 2, [], 9/10, 1⟩, "x".toList, true, 1⟩)],
     ["x".toList], []⟩
    (by decide) (by with_unfolding_all rfl)
    ⟨"x".toList, 2, 3, true⟩ (by decide)
  have hsp0 : sp0 = ⟨"x".toList, 0, 1, false⟩ :=
    Option.some.inj (hf.symm.trans (by decide))
  subst hsp0
  have ha : a = ⟨.rendered ⟨0, -1, 1, 2, 1, 2, [], 9/10, 1⟩, "x".toList, true, 1⟩ :=
    Option.some.inj (hr.symm.trans (by with_unfolding_all rfl))
  subst ha
  exact ⟨hf, hr, hl, hc⟩

/-- Witness for C7 on a concrete two-span document given out of order. -/
theorem claim7_rewrite_simultaneous_witness :
    rewriteDoc (fun sp => '<' :: sp.expression ++ ['>'])
      [⟨"a".toList, 2, 4, false⟩, ⟨"b".toList, 0, 1, true⟩] "0123456".toList =
    simulSubst (fun sp => '<' :: sp.expression ++ ['>'])
      [⟨"a".toList, 2, 4, false⟩, ⟨"b".toList, 0, 1, true⟩] "0123456".toList :=
  claim7_rewrite_simultaneous (fun sp => '<' :: sp.expression ++ ['>'])
    [⟨"a".toList, 2, 4, false⟩, ⟨"b".toList, 0, 1, true⟩] "0123456".toList
    (by decide) (by decide)

end Readme2Tex
